import Mathlib

/-!
Shallow embedding of the ledger and data-aggregation logic of the mock trading
dashboard (src/script.js) and of its simulated datafeed (src/data.js).

Modelling conventions:
* JavaScript numbers used for money and prices are modelled exactly in `ℚ`
  (the spec describes the arithmetic exactly, up to floating-point tolerance);
  quantities, produced by `parseInt`, are modelled as `ℤ`.
* The JS falsiness test `!x` on a number is `x = 0` (`NaN` inputs are outside
  the model); on a string it is `x = ""`.
* The single mutable `state.portfolio` object becomes explicit state passing:
  `handleTradeExecution` returns the resulting portfolio together with the
  error signalled by an early `return alert(...)`, if any.
* DOM reads/writes, chart rendering and `alert` calls are outside the ledger
  and are stripped; `Date.now()` becomes an explicit `now` argument.
-/

namespace Trade

/-- Order side, `type` in src/script.js (`'BUY'` / `'SELL'`). -/
inductive Side where
  | BUY
  | SELL
deriving DecidableEq

/-- The three rejection alerts of `handleTradeExecution`
(src/script.js lines 360, 364, 375), named as in the spec's error taxonomy. -/
inductive TradeError where
  | InvalidOrder
  | InsufficientFunds
  | InsufficientHoldings
deriving DecidableEq

/-- One holding: `state.portfolio.holdings[symbol] = { quantity, avgPrice }`. -/
structure Holding where
  quantity : Int
  avgPrice : Rat
deriving DecidableEq

/-- One order record, as pushed at src/script.js line 381. -/
structure Order where
  symbol : String
  type : Side
  price : Rat
  quantity : Int
  status : String
  timestamp : Int
deriving DecidableEq

/-- The JS object `state.portfolio.holdings` modelled as an association list
in key-insertion order (JS object semantics: updating an existing key keeps
its position, a new key is appended, `delete` removes it). -/
abbrev Holdings := List (String × Holding)

/-- Key lookup, `holdings[symbol]` (`none` models `undefined`). -/
def hLookup : Holdings → String → Option Holding
  | [], _ => none
  | (k, v) :: rest, s => if k = s then some v else hLookup rest s

/-- Key assignment, `holdings[symbol] = h`: overwrite in place if the key is
present, otherwise append. -/
def hSet : Holdings → String → Holding → Holdings
  | [], s, h => [(s, h)]
  | (k, v) :: rest, s, h =>
      if k = s then (k, h) :: rest else (k, v) :: hSet rest s h

/-- Key removal, `delete holdings[symbol]`. -/
def hErase (hs : Holdings) (s : String) : Holdings :=
  hs.filter (fun kv => kv.1 ≠ s)

/-- `state.portfolio` (src/script.js lines 7-12). -/
structure Portfolio where
  baseCapital : Rat
  availableFunds : Rat
  holdings : Holdings
  orders : List Order
deriving DecidableEq

/-- The initial portfolio state (src/script.js lines 7-12):
`baseCapital: 100000, availableFunds: 100000, holdings: {}, orders: []`. -/
def initialPortfolio : Portfolio :=
  { baseCapital := 100000, availableFunds := 100000, holdings := [], orders := [] }

/-- Shallow embedding of `handleTradeExecution` (src/script.js lines 354-385),
ledger effects only.  `quantity` is the `parseInt` result, `price` the
`parseFloat` result.  The guard mirrors line 360:
`!symbol || !quantity || !price || quantity <= 0`.  Returns the error of the
early `return alert(...)` path, if any, together with the portfolio at return
time (unchanged on every error path, since all checks precede all writes). -/
def handleTradeExecution (p : Portfolio) (symbol : String) (type : Side)
    (quantity : Int) (price : Rat) (now : Int) : Option TradeError × Portfolio :=
  if symbol = "" ∨ quantity = 0 ∨ price = 0 ∨ quantity ≤ 0 then
    (some TradeError.InvalidOrder, p)
  else
    match type with
    | Side.BUY =>
        let cost := price * (quantity : Rat)
        if p.availableFunds < cost then
          (some TradeError.InsufficientFunds, p)
        else
          let holdings :=
            match hLookup p.holdings symbol with
            | some h =>
                hSet p.holdings symbol
                  { avgPrice := (h.avgPrice * (h.quantity : Rat) + cost) /
                      ((h.quantity : Rat) + (quantity : Rat)),
                    quantity := h.quantity + quantity }
            | none => hSet p.holdings symbol { quantity := quantity, avgPrice := price }
          (none,
            { p with
              availableFunds := p.availableFunds - cost,
              holdings := holdings,
              orders := p.orders ++
                [{ symbol := symbol, type := type, price := price,
                   quantity := quantity, status := "Executed", timestamp := now }] })
    | Side.SELL =>
        match hLookup p.holdings symbol with
        | none => (some TradeError.InsufficientHoldings, p)
        | some h =>
            if h.quantity < quantity then
              (some TradeError.InsufficientHoldings, p)
            else
              let holdings :=
                if h.quantity - quantity = 0 then hErase p.holdings symbol
                else hSet p.holdings symbol { h with quantity := h.quantity - quantity }
              (none,
                { p with
                  availableFunds := p.availableFunds + price * (quantity : Rat),
                  holdings := holdings,
                  orders := p.orders ++
                    [{ symbol := symbol, type := type, price := price,
                       quantity := quantity, status := "Executed", timestamp := now }] })

/-- One user trade request (the form submission driving `handleTradeExecution`). -/
structure TradeRequest where
  symbol : String
  type : Side
  quantity : Int
  price : Rat
  now : Int
deriving DecidableEq

/-- The state after one form submission: the JS handler mutates
`state.portfolio` in place and discards the alert. -/
def applyRequest (p : Portfolio) (r : TradeRequest) : Portfolio :=
  (handleTradeExecution p r.symbol r.type r.quantity r.price r.now).2

/-- Run a sequence of trade requests against a portfolio. -/
def runRequests (p : Portfolio) : List TradeRequest → Portfolio
  | [] => p
  | r :: rs => runRequests (applyRequest p r) rs

/-- Total `price × quantity` over the BUY orders of a history. -/
def buyTotal (os : List Order) : Rat :=
  ((os.filter (fun o => o.type = Side.BUY)).map (fun o => o.price * (o.quantity : Rat))).sum

/-- Total `price × quantity` over the SELL orders of a history. -/
def sellTotal (os : List Order) : Rat :=
  ((os.filter (fun o => o.type = Side.SELL)).map (fun o => o.price * (o.quantity : Rat))).sum

/-- The order record pushed on success at src/script.js line 381. -/
def executedOrder (s : String) (t : Side) (pr : Rat) (q : Int) (n : Int) : Order :=
  { symbol := s, type := t, price := pr, quantity := q, status := "Executed", timestamp := n }

/-- Signed cash movement of an executed trade: BUY pays `price × quantity`,
SELL receives it. -/
def cashDelta (t : Side) (pr : Rat) (q : Int) : Rat :=
  match t with
  | Side.BUY => -(pr * (q : Rat))
  | Side.SELL => pr * (q : Rat)

/-- Master case analysis: every call either fails, returning the portfolio
untouched, or succeeds, keeping the base capital, appending exactly the
executed order and moving cash by exactly the trade's signed amount. -/
theorem handleTrade_cases (p : Portfolio) (s : String) (t : Side) (q : Int)
    (pr : Rat) (n : Int) :
    (∃ e, handleTradeExecution p s t q pr n = (some e, p)) ∨
    ((handleTradeExecution p s t q pr n).1 = none ∧
     (handleTradeExecution p s t q pr n).2.baseCapital = p.baseCapital ∧
     (handleTradeExecution p s t q pr n).2.orders
        = p.orders ++ [executedOrder s t pr q n] ∧
     (handleTradeExecution p s t q pr n).2.availableFunds
        = p.availableFunds + cashDelta t pr q) := by
  unfold handleTradeExecution
  split
  · exact Or.inl ⟨_, rfl⟩
  · cases t with
    | BUY =>
        dsimp only
        split
        · exact Or.inl ⟨_, rfl⟩
        · refine Or.inr ⟨rfl, rfl, rfl, ?_⟩
          simp [cashDelta]
          ring
    | SELL =>
        dsimp only
        cases hl : hLookup p.holdings s with
        | none => exact Or.inl ⟨_, rfl⟩
        | some h =>
            dsimp only
            split
            · exact Or.inl ⟨_, rfl⟩
            · exact Or.inr ⟨rfl, rfl, rfl, rfl⟩

/-- On any failed precondition the portfolio is returned unchanged. -/
theorem handleTrade_fail_eq {p : Portfolio} {s : String} {t : Side} {q : Int}
    {pr : Rat} {n : Int} {e : TradeError}
    (hfail : (handleTradeExecution p s t q pr n).1 = some e) :
    (handleTradeExecution p s t q pr n).2 = p := by
  rcases handleTrade_cases p s t q pr n with ⟨e', he⟩ | ⟨hok, _⟩
  · rw [he]
  · rw [hok] at hfail; cases hfail

/-- The base capital is never written. -/
theorem handleTrade_baseCapital (p : Portfolio) (s : String) (t : Side) (q : Int)
    (pr : Rat) (n : Int) :
    (handleTradeExecution p s t q pr n).2.baseCapital = p.baseCapital := by
  rcases handleTrade_cases p s t q pr n with ⟨e', he⟩ | ⟨_, hb, _⟩
  · rw [he]
  · exact hb

/-- On success, exactly one executed order is appended at the end. -/
theorem handleTrade_ok_orders {p : Portfolio} {s : String} {t : Side} {q : Int}
    {pr : Rat} {n : Int}
    (hok : (handleTradeExecution p s t q pr n).1 = none) :
    (handleTradeExecution p s t q pr n).2.orders
      = p.orders ++ [executedOrder s t pr q n] := by
  rcases handleTrade_cases p s t q pr n with ⟨e', he⟩ | ⟨_, _, ho, _⟩
  · rw [he] at hok; cases hok
  · exact ho

/-- On success, cash moves by exactly the trade's signed amount. -/
theorem handleTrade_ok_funds {p : Portfolio} {s : String} {t : Side} {q : Int}
    {pr : Rat} {n : Int}
    (hok : (handleTradeExecution p s t q pr n).1 = none) :
    (handleTradeExecution p s t q pr n).2.availableFunds
      = p.availableFunds + cashDelta t pr q := by
  rcases handleTrade_cases p s t q pr n with ⟨e', he⟩ | ⟨_, _, _, hf⟩
  · rw [he] at hok; cases hok
  · exact hf

/-- Funds conservation as a state predicate: available funds equal base
capital minus total BUY cost plus total SELL proceeds of the history. -/
def FundsConserved (p : Portfolio) : Prop :=
  p.availableFunds = p.baseCapital - buyTotal p.orders + sellTotal p.orders

theorem buyTotal_append (os os' : List Order) :
    buyTotal (os ++ os') = buyTotal os + buyTotal os' := by
  simp [buyTotal, List.filter_append]

theorem sellTotal_append (os os' : List Order) :
    sellTotal (os ++ os') = sellTotal os + sellTotal os' := by
  simp [sellTotal, List.filter_append]

theorem buyTotal_single (s : String) (t : Side) (pr : Rat) (q : Int) (n : Int) :
    buyTotal [executedOrder s t pr q n]
      = if t = Side.BUY then pr * (q : Rat) else 0 := by
  cases t <;> simp [buyTotal, executedOrder]

theorem sellTotal_single (s : String) (t : Side) (pr : Rat) (q : Int) (n : Int) :
    sellTotal [executedOrder s t pr q n]
      = if t = Side.SELL then pr * (q : Rat) else 0 := by
  cases t <;> simp [sellTotal, executedOrder]

theorem fundsConserved_step (p : Portfolio) (r : TradeRequest)
    (hp : FundsConserved p) : FundsConserved (applyRequest p r) := by
  unfold FundsConserved applyRequest at *
  rcases handleTrade_cases p r.symbol r.type r.quantity r.price r.now with
    ⟨e, he⟩ | ⟨_, hb, ho, hf⟩
  · rw [he]; exact hp
  · rw [hb, ho, hf, buyTotal_append, sellTotal_append, buyTotal_single,
      sellTotal_single, hp]
    cases r.type <;> simp [cashDelta] <;> ring

theorem fundsConserved_run (p : Portfolio) (hp : FundsConserved p)
    (rs : List TradeRequest) : FundsConserved (runRequests p rs) := by
  induction rs generalizing p with
  | nil => exact hp
  | cons r rs ih => exact ih _ (fundsConserved_step p r hp)

theorem fundsConserved_initial : FundsConserved initialPortfolio := by
  simp [FundsConserved, initialPortfolio, buyTotal, sellTotal]

theorem baseCapital_run (p : Portfolio) (rs : List TradeRequest) :
    (runRequests p rs).baseCapital = p.baseCapital := by
  induction rs generalizing p with
  | nil => rfl
  | cons r rs ih =>
      rw [runRequests, ih]
      exact handleTrade_baseCapital p r.symbol r.type r.quantity r.price r.now

/-- C1: for every sequence of trade requests run from the initial ledger, the
available funds equal the base capital minus the summed cost of the executed
BUY orders plus the summed proceeds of the executed SELL orders (the order
history records exactly the executed trades); moreover each successful BUY
decreases cash by exactly `price × quantity` and each successful SELL
increases it by exactly `price × quantity`. -/
theorem funds_conservation (rs : List TradeRequest) :
    ((runRequests initialPortfolio rs).availableFunds
        = (runRequests initialPortfolio rs).baseCapital
          - buyTotal (runRequests initialPortfolio rs).orders
          + sellTotal (runRequests initialPortfolio rs).orders) ∧
    (∀ (p : Portfolio) (s : String) (q : Int) (pr : Rat) (n : Int),
      (handleTradeExecution p s Side.BUY q pr n).1 = none →
      (handleTradeExecution p s Side.BUY q pr n).2.availableFunds
        = p.availableFunds - pr * (q : Rat)) ∧
    (∀ (p : Portfolio) (s : String) (q : Int) (pr : Rat) (n : Int),
      (handleTradeExecution p s Side.SELL q pr n).1 = none →
      (handleTradeExecution p s Side.SELL q pr n).2.availableFunds
        = p.availableFunds + pr * (q : Rat)) ∧
    (runRequests initialPortfolio rs).baseCapital = initialPortfolio.baseCapital := by
  refine ⟨fundsConserved_run _ fundsConserved_initial rs, ?_, ?_,
    baseCapital_run initialPortfolio rs⟩
  · intro p s q pr n hok
    rw [handleTrade_ok_funds hok]
    simp [cashDelta]
    ring
  · intro p s q pr n hok
    rw [handleTrade_ok_funds hok]
    simp [cashDelta]

/-- C1 witness: concrete instantiation — a BUY of 10 at 214.20 and a SELL of
4 at 225 from the initial ledger, and the two per-trade cash deltas at a
concrete successful call each. -/
theorem funds_conservation_witness :
    ((runRequests initialPortfolio
        [⟨"AAPL", Side.BUY, 10, 1071/5, 0⟩, ⟨"AAPL", Side.SELL, 4, 225, 1⟩]).availableFunds
        = (runRequests initialPortfolio
            [⟨"AAPL", Side.BUY, 10, 1071/5, 0⟩, ⟨"AAPL", Side.SELL, 4, 225, 1⟩]).baseCapital
          - buyTotal (runRequests initialPortfolio
              [⟨"AAPL", Side.BUY, 10, 1071/5, 0⟩, ⟨"AAPL", Side.SELL, 4, 225, 1⟩]).orders
          + sellTotal (runRequests initialPortfolio
              [⟨"AAPL", Side.BUY, 10, 1071/5, 0⟩, ⟨"AAPL", Side.SELL, 4, 225, 1⟩]).orders) ∧
    ((handleTradeExecution initialPortfolio "AAPL" Side.BUY 10 (1071/5) 0).1 = none ∧
      (handleTradeExecution initialPortfolio "AAPL" Side.BUY 10 (1071/5) 0).2.availableFunds
        = initialPortfolio.availableFunds - (1071/5) * ((10 : Int) : Rat)) ∧
    ((handleTradeExecution initialPortfolio "AAPL" Side.SELL 4 225 1).1 = none →
      (handleTradeExecution initialPortfolio "AAPL" Side.SELL 4 225 1).2.availableFunds
        = initialPortfolio.availableFunds + 225 * ((4 : Int) : Rat)) ∧
    (runRequests initialPortfolio
      [⟨"AAPL", Side.BUY, 10, 1071/5, 0⟩, ⟨"AAPL", Side.SELL, 4, 225, 1⟩]).baseCapital
      = initialPortfolio.baseCapital := by
  have hbuy : (handleTradeExecution initialPortfolio "AAPL" Side.BUY 10 (1071/5) 0).1
      = none := by
    simp [handleTradeExecution, initialPortfolio, hLookup]
    norm_num
  refine ⟨(funds_conservation _).1, ⟨hbuy, ?_⟩, ?_,
    (funds_conservation
      [⟨"AAPL", Side.BUY, 10, 1071/5, 0⟩, ⟨"AAPL", Side.SELL, 4, 225, 1⟩]).2.2.2⟩
  · exact (funds_conservation []).2.1 initialPortfolio "AAPL" 10 (1071/5) 0 hbuy
  · exact (funds_conservation []).2.2.1 initialPortfolio "AAPL" 4 225 1

/-- C2: whenever `handleTradeExecution` fails any precondition it signals the
error and the portfolio at return time is the input portfolio, every field
included: the rejection is atomic. -/
theorem rejection_atomic (p : Portfolio) (s : String) (t : Side) (q : Int)
    (pr : Rat) (n : Int) (e : TradeError)
    (hfail : (handleTradeExecution p s t q pr n).1 = some e) :
    (handleTradeExecution p s t q pr n).2 = p ∧
    (handleTradeExecution p s t q pr n).2.availableFunds = p.availableFunds ∧
    (handleTradeExecution p s t q pr n).2.holdings = p.holdings ∧
    (handleTradeExecution p s t q pr n).2.orders = p.orders := by
  have h := handleTrade_fail_eq hfail
  exact ⟨h, by rw [h], by rw [h], by rw [h]⟩

/-- C2 witness: a SELL with no holdings fails with `InsufficientHoldings` and
leaves the initial portfolio untouched. -/
theorem rejection_atomic_witness :
    (handleTradeExecution initialPortfolio "AAPL" Side.SELL 1 225 0).1
      = some TradeError.InsufficientHoldings ∧
    (handleTradeExecution initialPortfolio "AAPL" Side.SELL 1 225 0).2
      = initialPortfolio := by
  have hfail : (handleTradeExecution initialPortfolio "AAPL" Side.SELL 1 225 0).1
      = some TradeError.InsufficientHoldings := by
    simp [handleTradeExecution, initialPortfolio, hLookup]
  exact ⟨hfail,
    (rejection_atomic initialPortfolio "AAPL" Side.SELL 1 225 0
      TradeError.InsufficientHoldings hfail).1⟩

example :
    hLookup (handleTradeExecution initialPortfolio "AAPL" Side.BUY 10 (1071/5) 0).2.holdings
      "AAPL" = some { quantity := 10, avgPrice := 1071/5 } := by
  simp [handleTradeExecution, initialPortfolio, hSet]
  norm_num [hLookup]

/-- The error component of a call, fully unfolded. -/
theorem handleTrade_fst (p : Portfolio) (s : String) (t : Side) (q : Int)
    (pr : Rat) (n : Int) :
    (handleTradeExecution p s t q pr n).1 =
      if s = "" ∨ q = 0 ∨ pr = 0 ∨ q ≤ 0 then some TradeError.InvalidOrder
      else
        match t with
        | Side.BUY =>
            if p.availableFunds < pr * (q : Rat) then some TradeError.InsufficientFunds
            else none
        | Side.SELL =>
            match hLookup p.holdings s with
            | none => some TradeError.InsufficientHoldings
            | some h =>
                if h.quantity < q then some TradeError.InsufficientHoldings else none := by
  unfold handleTradeExecution
  split
  · rfl
  · cases t with
    | BUY => dsimp only; split <;> rfl
    | SELL =>
        dsimp only
        cases hLookup p.holdings s with
        | none => rfl
        | some h => dsimp only; split <;> rfl

/-- Successful SELL, characterized. -/
theorem handleTrade_sell_ok {p : Portfolio} {s : String} {q : Int} {pr : Rat}
    {n : Int} {h : Holding}
    (hv : ¬ (s = "" ∨ q = 0 ∨ pr = 0 ∨ q ≤ 0))
    (hl : hLookup p.holdings s = some h) (hq : ¬ h.quantity < q) :
    handleTradeExecution p s Side.SELL q pr n =
      (none,
        { p with
          availableFunds := p.availableFunds + pr * (q : Rat),
          holdings :=
            if h.quantity - q = 0 then hErase p.holdings s
            else hSet p.holdings s { h with quantity := h.quantity - q },
          orders := p.orders ++ [executedOrder s Side.SELL pr q n] }) := by
  unfold handleTradeExecution
  rw [if_neg hv]
  dsimp only
  rw [hl]
  dsimp only
  rw [if_neg hq]
  rfl

/-- Successful BUY into an empty position, characterized. -/
theorem handleTrade_buy_new {p : Portfolio} {s : String} {q : Int} {pr : Rat}
    {n : Int}
    (hv : ¬ (s = "" ∨ q = 0 ∨ pr = 0 ∨ q ≤ 0))
    (hl : hLookup p.holdings s = none)
    (hf : ¬ p.availableFunds < pr * (q : Rat)) :
    handleTradeExecution p s Side.BUY q pr n =
      (none,
        { p with
          availableFunds := p.availableFunds - pr * (q : Rat),
          holdings := hSet p.holdings s { quantity := q, avgPrice := pr },
          orders := p.orders ++ [executedOrder s Side.BUY pr q n] }) := by
  unfold handleTradeExecution
  rw [if_neg hv]
  dsimp only
  rw [if_neg hf, hl]
  rfl

/-- Successful BUY merging into an existing position, characterized. -/
theorem handleTrade_buy_merge {p : Portfolio} {s : String} {q : Int} {pr : Rat}
    {n : Int} {h : Holding}
    (hv : ¬ (s = "" ∨ q = 0 ∨ pr = 0 ∨ q ≤ 0))
    (hl : hLookup p.holdings s = some h)
    (hf : ¬ p.availableFunds < pr * (q : Rat)) :
    handleTradeExecution p s Side.BUY q pr n =
      (none,
        { p with
          availableFunds := p.availableFunds - pr * (q : Rat),
          holdings :=
            hSet p.holdings s
              { quantity := h.quantity + q,
                avgPrice := (h.avgPrice * (h.quantity : Rat) + pr * (q : Rat)) /
                  ((h.quantity : Rat) + (q : Rat)) },
          orders := p.orders ++ [executedOrder s Side.BUY pr q n] }) := by
  unfold handleTradeExecution
  rw [if_neg hv]
  dsimp only
  rw [if_neg hf, hl]
  rfl

theorem hLookup_hErase (hs : Holdings) (s : String) :
    hLookup (hErase hs s) s = none := by
  induction hs with
  | nil => rfl
  | cons kv rest ih =>
      by_cases hk : kv.1 = s
      · simpa [hErase, hk] using ih
      · simpa [hErase, hLookup, hk] using ih

/-- C3 counterexample: a BUY of 1 share at price −5 from the initial ledger is
not rejected: no error is signalled and the available funds change (to
100005), refuting "an order with a strictly negative price is rejected
rather than executed". -/
theorem negative_price_executes :
    (handleTradeExecution initialPortfolio "AAPL" Side.BUY 1 (-5) 0).1 = none ∧
    (handleTradeExecution initialPortfolio "AAPL" Side.BUY 1 (-5) 0).2.availableFunds
      = 100005 := by
  constructor
  · simp [handleTradeExecution, initialPortfolio]
    norm_num
  · simp [handleTradeExecution, initialPortfolio, hLookup]
    norm_num

/-- C3 amended: the guard at src/script.js line 360
(`!symbol || !quantity || !price || quantity <= 0`) signals `InvalidOrder`
exactly when the symbol is empty, the parsed quantity is ≤ 0, or the parsed
price equals 0.  A strictly negative price passes the guard, and the parsed
quantity is always an integer (`parseInt` truncates fractional input such as
2.5 to 2 instead of rejecting it). -/
theorem invalid_order_iff (p : Portfolio) (s : String) (t : Side) (q : Int)
    (pr : Rat) (n : Int) :
    (handleTradeExecution p s t q pr n).1 = some TradeError.InvalidOrder
      ↔ (s = "" ∨ q ≤ 0 ∨ pr = 0) := by
  rw [handleTrade_fst]
  by_cases hc : s = "" ∨ q = 0 ∨ pr = 0 ∨ q ≤ 0
  · rw [if_pos hc]
    simp only [Option.some.injEq, true_iff]
    rcases hc with h | h | h | h
    · exact Or.inl h
    · exact Or.inr (Or.inl (le_of_eq h))
    · exact Or.inr (Or.inr h)
    · exact Or.inr (Or.inl h)
  · rw [if_neg hc]
    constructor
    · intro hsome
      exfalso
      cases t with
      | BUY =>
          revert hsome
          dsimp only
          split <;> intro hsome <;> cases hsome
      | SELL =>
          revert hsome
          dsimp only
          cases hLookup p.holdings s with
          | none => intro hsome; cases hsome
          | some h => dsimp only; split <;> intro hsome <;> cases hsome
    · intro hr
      exfalso
      apply hc
      rcases hr with h | h | h
      · exact Or.inl h
      · exact Or.inr (Or.inr (Or.inr h))
      · exact Or.inr (Or.inr (Or.inl h))

/-- C4: with inputs passing the validity guard, a BUY fails with
`InsufficientFunds` iff `availableFunds < price × quantity`, and a SELL fails
with `InsufficientHoldings` iff no holding exists for the symbol or the held
quantity is below the order quantity; consequently, after a SELL that closes
a position completely, any further SELL of that symbol (with valid inputs)
fails with `InsufficientHoldings`. -/
theorem business_errors_iff (p : Portfolio) (s : String) (q : Int) (pr : Rat)
    (n : Int) (hv : ¬ (s = "" ∨ q ≤ 0 ∨ pr = 0)) :
    ((handleTradeExecution p s Side.BUY q pr n).1 = some TradeError.InsufficientFunds
      ↔ p.availableFunds < pr * (q : Rat)) ∧
    ((handleTradeExecution p s Side.SELL q pr n).1 = some TradeError.InsufficientHoldings
      ↔ (hLookup p.holdings s = none ∨
          ∃ h, hLookup p.holdings s = some h ∧ h.quantity < q)) ∧
    (∀ (h : Holding), hLookup p.holdings s = some h → h.quantity = q →
      ∀ (q' : Int) (pr' : Rat) (n' : Int), ¬ (s = "" ∨ q' ≤ 0 ∨ pr' = 0) →
        (handleTradeExecution (handleTradeExecution p s Side.SELL q pr n).2
            s Side.SELL q' pr' n').1 = some TradeError.InsufficientHoldings) := by
  have hv' : ¬ (s = "" ∨ q = 0 ∨ pr = 0 ∨ q ≤ 0) := by
    intro h
    apply hv
    rcases h with h | h | h | h
    · exact Or.inl h
    · exact Or.inr (Or.inl (le_of_eq h))
    · exact Or.inr (Or.inr h)
    · exact Or.inr (Or.inl h)
  refine ⟨?_, ?_, ?_⟩
  · rw [handleTrade_fst, if_neg hv']
    dsimp only
    split
    next hlt => exact iff_of_true rfl hlt
    next hge => exact iff_of_false (by simp) hge
  · rw [handleTrade_fst, if_neg hv']
    dsimp only
    cases hl : hLookup p.holdings s with
    | none => simp
    | some h =>
        dsimp only
        split
        next hlt => exact iff_of_true rfl (Or.inr ⟨h, rfl, hlt⟩)
        next hge =>
          refine iff_of_false (by simp) ?_
          rintro (hnone | ⟨h', hh', hlt⟩)
          · cases hnone
          · rw [Option.some.injEq] at hh'
            subst hh'
            omega
  · intro h hl hq q' pr' n' hv2
    have hv2' : ¬ (s = "" ∨ q' = 0 ∨ pr' = 0 ∨ q' ≤ 0) := by
      intro hx
      apply hv2
      rcases hx with hx | hx | hx | hx
      · exact Or.inl hx
      · exact Or.inr (Or.inl (le_of_eq hx))
      · exact Or.inr (Or.inr hx)
      · exact Or.inr (Or.inl hx)
    have hq' : ¬ h.quantity < q := by omega
    rw [handleTrade_sell_ok hv' hl hq']
    have hz : h.quantity - q = 0 := by omega
    rw [handleTrade_fst, if_neg hv2']
    dsimp only
    rw [if_pos hz, hLookup_hErase]

/-- C4 witness: a concrete portfolio holding 10 AAPL at 214.20 — buying at a
cost exceeding cash fails with `InsufficientFunds` iff cash is short, a
SELL of 11 fails with `InsufficientHoldings`, and after selling all 10 a
further SELL of 1 fails with `InsufficientHoldings`. -/
theorem business_errors_iff_witness :
    (¬ (("AAPL" : String) = "" ∨ (10 : Int) ≤ 0 ∨ (1071/5 : Rat) = 0)) ∧
    (((handleTradeExecution (applyRequest initialPortfolio ⟨"AAPL", Side.BUY, 10, 1071/5, 0⟩)
        "AAPL" Side.BUY 10 (1071/5) 1).1 = some TradeError.InsufficientFunds
      ↔ (applyRequest initialPortfolio ⟨"AAPL", Side.BUY, 10, 1071/5, 0⟩).availableFunds
          < (1071/5 : Rat) * ((10 : Int) : Rat)) ∧
     ((handleTradeExecution (applyRequest initialPortfolio ⟨"AAPL", Side.BUY, 10, 1071/5, 0⟩)
        "AAPL" Side.SELL 10 (1071/5) 1).1 = some TradeError.InsufficientHoldings
      ↔ (hLookup (applyRequest initialPortfolio ⟨"AAPL", Side.BUY, 10, 1071/5, 0⟩).holdings
            "AAPL" = none ∨
          ∃ h, hLookup (applyRequest initialPortfolio
              ⟨"AAPL", Side.BUY, 10, 1071/5, 0⟩).holdings "AAPL" = some h ∧
            h.quantity < 10)) ∧
     (∀ (h : Holding),
        hLookup (applyRequest initialPortfolio
          ⟨"AAPL", Side.BUY, 10, 1071/5, 0⟩).holdings "AAPL" = some h →
        h.quantity = 10 →
        ∀ (q' : Int) (pr' : Rat) (n' : Int), ¬ (("AAPL" : String) = "" ∨ q' ≤ 0 ∨ pr' = 0) →
          (handleTradeExecution
              (handleTradeExecution (applyRequest initialPortfolio
                ⟨"AAPL", Side.BUY, 10, 1071/5, 0⟩) "AAPL" Side.SELL 10 (1071/5) 1).2
              "AAPL" Side.SELL q' pr' n').1 = some TradeError.InsufficientHoldings)) := by
  have hv : ¬ (("AAPL" : String) = "" ∨ (10 : Int) ≤ 0 ∨ (1071/5 : Rat) = 0) := by
    intro h
    rcases h with h | h | h
    · exact absurd h (by decide)
    · omega
    · norm_num at h
  exact ⟨hv, business_errors_iff
    (applyRequest initialPortfolio ⟨"AAPL", Side.BUY, 10, 1071/5, 0⟩) "AAPL" 10 (1071/5) 1 hv⟩

theorem hLookup_hSet_self (hs : Holdings) (s : String) (h : Holding) :
    hLookup (hSet hs s h) s = some h := by
  induction hs with
  | nil => simp [hSet, hLookup]
  | cons kv rest ih =>
      obtain ⟨k, v⟩ := kv
      by_cases hk : k = s
      · simp [hSet, hLookup, hk]
      · simp [hSet, hLookup, hk, ih]

theorem hLookup_mem {hs : Holdings} {s : String} {h : Holding}
    (hl : hLookup hs s = some h) : (s, h) ∈ hs := by
  induction hs with
  | nil => cases hl
  | cons kv rest ih =>
      obtain ⟨k, v⟩ := kv
      by_cases hk : k = s
      · rw [hLookup, if_pos hk] at hl
        rw [Option.some.injEq] at hl
        subst hk
        subst hl
        exact List.mem_cons_self _ _
      · rw [hLookup, if_neg hk] at hl
        exact List.mem_cons_of_mem _ (ih hl)

theorem mem_hSet {hs : Holdings} {s : String} {h : Holding} {kv : String × Holding}
    (hkv : kv ∈ hSet hs s h) : kv ∈ hs ∨ kv = (s, h) := by
  induction hs with
  | nil => simpa [hSet] using hkv
  | cons kv' rest ih =>
      obtain ⟨k, v⟩ := kv'
      by_cases hk : k = s
      · rw [hSet, if_pos hk] at hkv
        rcases List.mem_cons.mp hkv with rfl | hmem
        · exact Or.inr (by rw [hk])
        · exact Or.inl (List.mem_cons_of_mem _ hmem)
      · rw [hSet, if_neg hk] at hkv
        rcases List.mem_cons.mp hkv with rfl | hmem
        · exact Or.inl (List.mem_cons_self _ _)
        · rcases ih hmem with h1 | h1
          · exact Or.inl (List.mem_cons_of_mem _ h1)
          · exact Or.inr h1

theorem mem_hErase {hs : Holdings} {s : String} {kv : String × Holding}
    (hkv : kv ∈ hErase hs s) : kv ∈ hs :=
  List.mem_of_mem_filter hkv

/-- C5: buying `q1` at `p1` into an empty position creates a holding with
`avgPrice = p1` and `quantity = q1`; a second BUY of `q2` at `p2` on the same
symbol yields `quantity = q1 + q2` and the weighted average
`avgPrice = (p1·q1 + p2·q2)/(q1 + q2)`, exactly (rational arithmetic). -/
theorem avg_price_correct (p : Portfolio) (s : String) (q1 q2 : Int)
    (p1 p2 : Rat) (n1 n2 : Int)
    (hv1 : ¬ (s = "" ∨ q1 = 0 ∨ p1 = 0 ∨ q1 ≤ 0))
    (hv2 : ¬ (s = "" ∨ q2 = 0 ∨ p2 = 0 ∨ q2 ≤ 0))
    (hl : hLookup p.holdings s = none)
    (hf1 : ¬ p.availableFunds < p1 * (q1 : Rat))
    (hf2 : ¬ (handleTradeExecution p s Side.BUY q1 p1 n1).2.availableFunds
            < p2 * (q2 : Rat)) :
    hLookup (handleTradeExecution p s Side.BUY q1 p1 n1).2.holdings s
      = some { quantity := q1, avgPrice := p1 } ∧
    hLookup (handleTradeExecution
        (handleTradeExecution p s Side.BUY q1 p1 n1).2 s Side.BUY q2 p2 n2).2.holdings s
      = some { quantity := q1 + q2,
               avgPrice := (p1 * (q1 : Rat) + p2 * (q2 : Rat)) / ((q1 : Rat) + (q2 : Rat)) } := by
  have h1 := handleTrade_buy_new (n := n1) hv1 hl hf1
  have hl1 : hLookup (handleTradeExecution p s Side.BUY q1 p1 n1).2.holdings s
      = some { quantity := q1, avgPrice := p1 } := by
    rw [h1]
    exact hLookup_hSet_self _ _ _
  refine ⟨hl1, ?_⟩
  have h2 := handleTrade_buy_merge (n := n2) hv2 hl1 hf2
  rw [h2]
  rw [hLookup_hSet_self]

/-- C5 witness: BUY 10 at 214.20 then BUY 5 at 220 from the initial ledger
gives a 10-share holding at 214.20, then a 15-share holding at
(214.20·10 + 220·5)/15. -/
theorem avg_price_correct_witness :
    (¬ (("AAPL" : String) = "" ∨ (10 : Int) = 0 ∨ (1071/5 : Rat) = 0 ∨ (10 : Int) ≤ 0)) ∧
    (¬ (("AAPL" : String) = "" ∨ (5 : Int) = 0 ∨ (220 : Rat) = 0 ∨ (5 : Int) ≤ 0)) ∧
    hLookup initialPortfolio.holdings "AAPL" = none ∧
    (¬ initialPortfolio.availableFunds < (1071/5 : Rat) * ((10 : Int) : Rat)) ∧
    (¬ (handleTradeExecution initialPortfolio "AAPL" Side.BUY 10 (1071/5) 0).2.availableFunds
        < (220 : Rat) * ((5 : Int) : Rat)) ∧
    (hLookup (handleTradeExecution initialPortfolio "AAPL" Side.BUY 10 (1071/5) 0).2.holdings
        "AAPL" = some { quantity := 10, avgPrice := 1071/5 } ∧
     hLookup (handleTradeExecution
         (handleTradeExecution initialPortfolio "AAPL" Side.BUY 10 (1071/5) 0).2
         "AAPL" Side.BUY 5 220 1).2.holdings "AAPL"
       = some { quantity := 10 + 5,
                avgPrice := ((1071/5 : Rat) * ((10 : Int) : Rat) + (220 : Rat) * ((5 : Int) : Rat))
                  / (((10 : Int) : Rat) + ((5 : Int) : Rat)) }) := by
  have hv1 : ¬ (("AAPL" : String) = "" ∨ (10 : Int) = 0 ∨ (1071/5 : Rat) = 0 ∨ (10 : Int) ≤ 0) := by
    intro h
    rcases h with h | h | h | h
    · exact absurd h (by decide)
    · omega
    · norm_num at h
    · omega
  have hv2 : ¬ (("AAPL" : String) = "" ∨ (5 : Int) = 0 ∨ (220 : Rat) = 0 ∨ (5 : Int) ≤ 0) := by
    intro h
    rcases h with h | h | h | h
    · exact absurd h (by decide)
    · omega
    · norm_num at h
    · omega
  have hl : hLookup initialPortfolio.holdings "AAPL" = none := rfl
  have hf1 : ¬ initialPortfolio.availableFunds < (1071/5 : Rat) * ((10 : Int) : Rat) := by
    simp [initialPortfolio]
    norm_num
  have hf2 : ¬ (handleTradeExecution initialPortfolio "AAPL" Side.BUY 10 (1071/5) 0).2.availableFunds
      < (220 : Rat) * ((5 : Int) : Rat) := by
    simp [handleTradeExecution, initialPortfolio, hLookup]
    norm_num
  exact ⟨hv1, hv2, hl, hf1, hf2,
    avg_price_correct initialPortfolio "AAPL" 10 5 (1071/5) 220 0 1 hv1 hv2 hl hf1 hf2⟩

/-- Every holding present in the ledger has strictly positive quantity. -/
def HoldingsPos (p : Portfolio) : Prop :=
  ∀ kv ∈ p.holdings, 0 < kv.2.quantity

theorem holdingsPos_step (p : Portfolio) (r : TradeRequest)
    (hp : HoldingsPos p) : HoldingsPos (applyRequest p r) := by
  obtain ⟨s, t, q, pr, n⟩ := r
  by_cases hv : s = "" ∨ q = 0 ∨ pr = 0 ∨ q ≤ 0
  · unfold applyRequest handleTradeExecution
    dsimp only
    rw [if_pos hv]
    exact hp
  · have hq : 0 < q := by
      by_contra hcon
      exact hv (Or.inr (Or.inr (Or.inr (by omega))))
    cases t with
    | BUY =>
        by_cases hf : p.availableFunds < pr * (q : Rat)
        · unfold applyRequest handleTradeExecution
          dsimp only
          rw [if_neg hv]
          rw [if_pos hf]
          exact hp
        · cases hl : hLookup p.holdings s with
          | none =>
              unfold applyRequest
              dsimp only
              rw [handleTrade_buy_new hv hl hf]
              intro kv hkv
              rcases mem_hSet hkv with hm | rfl
              · exact hp _ hm
              · exact hq
          | some h =>
              unfold applyRequest
              dsimp only
              rw [handleTrade_buy_merge hv hl hf]
              intro kv hkv
              rcases mem_hSet hkv with hm | rfl
              · exact hp _ hm
              · have hh : 0 < h.quantity := hp _ (hLookup_mem hl)
                show 0 < h.quantity + q
                omega
    | SELL =>
        cases hl : hLookup p.holdings s with
        | none =>
            unfold applyRequest handleTradeExecution
            dsimp only
            rw [if_neg hv]
            rw [hl]
            exact hp
        | some h =>
            by_cases hqs : h.quantity < q
            · unfold applyRequest handleTradeExecution
              dsimp only
              rw [if_neg hv]
              rw [hl]
              dsimp only
              rw [if_pos hqs]
              exact hp
            · unfold applyRequest
              dsimp only
              rw [handleTrade_sell_ok hv hl hqs]
              dsimp only
              by_cases hz : h.quantity - q = 0
              · rw [if_pos hz]
                intro kv hkv
                exact hp _ (mem_hErase hkv)
              · rw [if_neg hz]
                intro kv hkv
                rcases mem_hSet hkv with hm | rfl
                · exact hp _ hm
                · show 0 < h.quantity - q
                  omega

theorem holdingsPos_run (p : Portfolio) (hp : HoldingsPos p)
    (rs : List TradeRequest) : HoldingsPos (runRequests p rs) := by
  induction rs generalizing p with
  | nil => exact hp
  | cons r rs ih => exact ih _ (holdingsPos_step p r hp)

theorem holdingsPos_initial : HoldingsPos initialPortfolio := by
  intro kv hkv
  cases hkv

/-- C6: every operation keeps all held quantities strictly positive (so no
quantity ever becomes negative, and every symbol in holdings after any
sequence of operations from the initial ledger has positive quantity); a
SELL that brings a holding exactly to zero removes the symbol entirely from
the map (no average price is retained); a partial SELL leaves the remaining
holding with the same average price. -/
theorem holdings_invariant :
    (∀ rs : List TradeRequest, HoldingsPos (runRequests initialPortfolio rs)) ∧
    (∀ (p : Portfolio) (r : TradeRequest), HoldingsPos p → HoldingsPos (applyRequest p r)) ∧
    (∀ (p : Portfolio) (s : String) (q : Int) (pr : Rat) (n : Int) (h : Holding),
      ¬ (s = "" ∨ q = 0 ∨ pr = 0 ∨ q ≤ 0) →
      hLookup p.holdings s = some h → h.quantity = q →
      hLookup (handleTradeExecution p s Side.SELL q pr n).2.holdings s = none) ∧
    (∀ (p : Portfolio) (s : String) (q : Int) (pr : Rat) (n : Int) (h : Holding),
      ¬ (s = "" ∨ q = 0 ∨ pr = 0 ∨ q ≤ 0) →
      hLookup p.holdings s = some h → q < h.quantity →
      hLookup (handleTradeExecution p s Side.SELL q pr n).2.holdings s
        = some { quantity := h.quantity - q, avgPrice := h.avgPrice }) := by
  refine ⟨fun rs => holdingsPos_run _ holdingsPos_initial rs, holdingsPos_step, ?_, ?_⟩
  · intro p s q pr n h hv hl hq
    have hqs : ¬ h.quantity < q := by omega
    rw [handleTrade_sell_ok hv hl hqs]
    dsimp only
    rw [if_pos (by omega : h.quantity - q = 0)]
    exact hLookup_hErase _ _
  · intro p s q pr n h hv hl hlt
    have hqs : ¬ h.quantity < q := by omega
    rw [handleTrade_sell_ok hv hl hqs]
    dsimp only
    rw [if_neg (by omega : ¬ h.quantity - q = 0)]
    exact hLookup_hSet_self _ _ _

/-- C6 witness: after BUY 10 AAPL @ 214.20, selling all 10 removes the AAPL
holding while selling 4 leaves 6 shares at the unchanged average 214.20;
and the invariant holds after a concrete run. -/
theorem holdings_invariant_witness :
    HoldingsPos (runRequests initialPortfolio
      [⟨"AAPL", Side.BUY, 10, 1071/5, 0⟩, ⟨"AAPL", Side.SELL, 4, 225, 1⟩]) ∧
    (HoldingsPos initialPortfolio ∧
      HoldingsPos (applyRequest initialPortfolio ⟨"AAPL", Side.BUY, 10, 1071/5, 0⟩)) ∧
    (hLookup (handleTradeExecution
        (handleTradeExecution initialPortfolio "AAPL" Side.BUY 10 (1071/5) 0).2
        "AAPL" Side.SELL 10 225 1).2.holdings "AAPL" = none) ∧
    (hLookup (handleTradeExecution
        (handleTradeExecution initialPortfolio "AAPL" Side.BUY 10 (1071/5) 0).2
        "AAPL" Side.SELL 4 225 1).2.holdings "AAPL"
      = some { quantity := 10 - 4, avgPrice := 1071/5 }) := by
  have hl : hLookup (handleTradeExecution initialPortfolio
      "AAPL" Side.BUY 10 (1071/5) 0).2.holdings "AAPL"
      = some { quantity := 10, avgPrice := 1071/5 } := by
    simp [handleTradeExecution, initialPortfolio, hSet]
    norm_num [hLookup]
  have hv10 : ¬ (("AAPL" : String) = "" ∨ (10 : Int) = 0 ∨ (225 : Rat) = 0 ∨ (10 : Int) ≤ 0) := by
    intro h
    rcases h with h | h | h | h
    · exact absurd h (by decide)
    · omega
    · norm_num at h
    · omega
  have hv4 : ¬ (("AAPL" : String) = "" ∨ (4 : Int) = 0 ∨ (225 : Rat) = 0 ∨ (4 : Int) ≤ 0) := by
    intro h
    rcases h with h | h | h | h
    · exact absurd h (by decide)
    · omega
    · norm_num at h
    · omega
  refine ⟨holdings_invariant.1 _, ⟨holdingsPos_initial, ?_⟩, ?_, ?_⟩
  · exact holdings_invariant.2.1 initialPortfolio _ holdingsPos_initial
  · exact holdings_invariant.2.2.1 _ "AAPL" 10 225 1 _ hv10 hl rfl
  · exact holdings_invariant.2.2.2 _ "AAPL" 4 225 1 _ hv4 hl (by decide)

/-- Every order in the history carries status `"Executed"`. -/
def AllExecuted (p : Portfolio) : Prop :=
  ∀ o ∈ p.orders, o.status = "Executed"

theorem orders_step_append (p : Portfolio) (r : TradeRequest) :
    ∃ suffix, (applyRequest p r).orders = p.orders ++ suffix := by
  unfold applyRequest
  rcases handleTrade_cases p r.symbol r.type r.quantity r.price r.now with
    ⟨e, he⟩ | ⟨_, _, ho, _⟩
  · exact ⟨[], by rw [he, List.append_nil]⟩
  · exact ⟨[executedOrder r.symbol r.type r.price r.quantity r.now], ho⟩

theorem orders_run_append (p : Portfolio) (rs : List TradeRequest) :
    ∃ suffix, (runRequests p rs).orders = p.orders ++ suffix := by
  induction rs generalizing p with
  | nil => exact ⟨[], by rw [List.append_nil]; rfl⟩
  | cons r rs ih =>
      obtain ⟨s1, h1⟩ := orders_step_append p r
      obtain ⟨s2, h2⟩ := ih (applyRequest p r)
      exact ⟨s1 ++ s2, by rw [runRequests, h2, h1, List.append_assoc]⟩

theorem allExecuted_step (p : Portfolio) (r : TradeRequest)
    (hp : AllExecuted p) : AllExecuted (applyRequest p r) := by
  unfold applyRequest
  rcases handleTrade_cases p r.symbol r.type r.quantity r.price r.now with
    ⟨e, he⟩ | ⟨_, _, ho, _⟩
  · rw [he]; exact hp
  · intro o hmem
    rw [ho] at hmem
    rcases List.mem_append.mp hmem with hold | hnew
    · exact hp _ hold
    · rcases List.mem_singleton.mp hnew with rfl
      rfl

theorem allExecuted_run (p : Portfolio) (hp : AllExecuted p)
    (rs : List TradeRequest) : AllExecuted (runRequests p rs) := by
  induction rs generalizing p with
  | nil => exact hp
  | cons r rs ih => exact ih _ (allExecuted_step p r hp)

/-- C7: a successful execution appends exactly one order, at the end, with
status `"Executed"`; a failed execution appends nothing; along any run the
previous history is always a prefix of the new one (prior entries are never
mutated or deleted, so store order is execution order); and every order ever
present in a state reachable from the initial ledger has status
`"Executed"` — no other status value appears. -/
theorem order_history_append_only :
    (∀ (p : Portfolio) (s : String) (t : Side) (q : Int) (pr : Rat) (n : Int),
      (handleTradeExecution p s t q pr n).1 = none →
      (handleTradeExecution p s t q pr n).2.orders
        = p.orders ++ [executedOrder s t pr q n]) ∧
    (∀ (s : String) (t : Side) (q : Int) (pr : Rat) (n : Int),
      (executedOrder s t pr q n).status = "Executed") ∧
    (∀ (p : Portfolio) (s : String) (t : Side) (q : Int) (pr : Rat) (n : Int)
        (e : TradeError),
      (handleTradeExecution p s t q pr n).1 = some e →
      (handleTradeExecution p s t q pr n).2.orders = p.orders) ∧
    (∀ (p : Portfolio) (rs : List TradeRequest),
      ∃ suffix, (runRequests p rs).orders = p.orders ++ suffix) ∧
    (∀ rs : List TradeRequest, AllExecuted (runRequests initialPortfolio rs)) := by
  refine ⟨?_, fun _ _ _ _ _ => rfl, ?_, orders_run_append, ?_⟩
  · intro p s t q pr n hok
    exact handleTrade_ok_orders hok
  · intro p s t q pr n e hfail
    rw [handleTrade_fail_eq hfail]
  · intro rs
    exact allExecuted_run _ (fun o ho => by cases ho) rs

/-- C7 witness: a successful BUY appends its executed order to the initially
empty history, a failed SELL appends nothing, and a concrete run keeps every
status `"Executed"`. -/
theorem order_history_append_only_witness :
    ((handleTradeExecution initialPortfolio "AAPL" Side.BUY 10 (1071/5) 0).1 = none ∧
      (handleTradeExecution initialPortfolio "AAPL" Side.BUY 10 (1071/5) 0).2.orders
        = initialPortfolio.orders ++ [executedOrder "AAPL" Side.BUY (1071/5) 10 0]) ∧
    (executedOrder "AAPL" Side.BUY (1071/5) 10 0).status = "Executed" ∧
    ((handleTradeExecution initialPortfolio "AAPL" Side.SELL 1 225 0).1
        = some TradeError.InsufficientHoldings ∧
      (handleTradeExecution initialPortfolio "AAPL" Side.SELL 1 225 0).2.orders
        = initialPortfolio.orders) ∧
    (∃ suffix, (runRequests initialPortfolio
        [⟨"AAPL", Side.BUY, 10, 1071/5, 0⟩]).orders
        = initialPortfolio.orders ++ suffix) ∧
    AllExecuted (runRequests initialPortfolio [⟨"AAPL", Side.BUY, 10, 1071/5, 0⟩]) := by
  have hok : (handleTradeExecution initialPortfolio "AAPL" Side.BUY 10 (1071/5) 0).1 = none := by
    simp [handleTradeExecution, initialPortfolio, hLookup]
    norm_num
  have hfail : (handleTradeExecution initialPortfolio "AAPL" Side.SELL 1 225 0).1
      = some TradeError.InsufficientHoldings := by
    simp [handleTradeExecution, initialPortfolio, hLookup]
  refine ⟨⟨hok, order_history_append_only.1 _ _ _ _ _ _ hok⟩,
    order_history_append_only.2.1 "AAPL" Side.BUY 10 (1071/5) 0,
    ⟨hfail, order_history_append_only.2.2.1 _ _ _ _ _ _ _ hfail⟩,
    order_history_append_only.2.2.2.1 initialPortfolio _,
    order_history_append_only.2.2.2.2 _⟩

/-- The spec's concrete scenario, step 1: BUY 10 AAPL @ 214.20. -/
def scenarioStep1 : Portfolio :=
  applyRequest initialPortfolio ⟨"AAPL", Side.BUY, 10, 1071/5, 0⟩

/-- The spec's concrete scenario, step 2: then BUY 5 AAPL @ 220. -/
def scenarioStep2 : Portfolio :=
  applyRequest scenarioStep1 ⟨"AAPL", Side.BUY, 5, 220, 1⟩

/-- The spec's concrete scenario, step 3: then SELL 15 AAPL @ 225. -/
def scenarioStep3 : Portfolio :=
  applyRequest scenarioStep2 ⟨"AAPL", Side.SELL, 15, 225, 2⟩

/-- C8 counterexample: after BUY 10 @ 214.20 and BUY 5 @ 220 the AAPL average
price is `(214.20·10 + 220·5)/15 = 3242/15 = 216.13̄`, not `215.87` as the
claim states: the claim's equation `(214.20×10+220×5)/15 = 215.87` is false. -/
theorem scenario_avg_counterexample :
    hLookup scenarioStep2.holdings "AAPL"
      = some { quantity := 15, avgPrice := 3242/15 } ∧
    ((1071/5 : Rat) * 10 + 220 * 5) / 15 = 3242/15 ∧
    (3242/15 : Rat) ≠ 21587/100 := by
  refine ⟨?_, by norm_num, by norm_num⟩
  simp [scenarioStep2, scenarioStep1, applyRequest, handleTradeExecution,
    initialPortfolio, hSet, hLookup]
  norm_num [hLookup, hSet]

/-- C8 amended: the scenario exactly as the code computes it — BUY 10 AAPL @
214.20 gives funds 97858 and holding {qty 10, avg 214.20}; BUY 5 @ 220 gives
funds 96758 and holding {qty 15, avg 3242/15 ≈ 216.13}; SELL 15 @ 225 gives
funds 100133 and no AAPL holding. -/
theorem scenario_exact :
    scenarioStep1.availableFunds = 97858 ∧
    hLookup scenarioStep1.holdings "AAPL" = some { quantity := 10, avgPrice := 1071/5 } ∧
    scenarioStep2.availableFunds = 96758 ∧
    hLookup scenarioStep2.holdings "AAPL" = some { quantity := 15, avgPrice := 3242/15 } ∧
    scenarioStep3.availableFunds = 100133 ∧
    hLookup scenarioStep3.holdings "AAPL" = none := by
  refine ⟨?_, ?_, ?_, ?_, ?_, ?_⟩ <;>
    · simp [scenarioStep3, scenarioStep2, scenarioStep1, applyRequest,
        handleTradeExecution, initialPortfolio, hSet, hErase, hLookup]
      norm_num [hLookup, hSet, hErase]

/-!
Simulated datafeed of src/data.js.  `subscribeBars` (lines 65-80) starts a
`setInterval` timer that invokes `onRealtimeCallback` every 2 seconds; the
interval id is not stored anywhere.  `unsubscribeBars` (lines 82-84) only
writes a console log.  Modelled as a step relation on the multiset of running
timers, with emissions made explicit.
-/

/-- The set of running `setInterval` timers, keyed by subscriberUID. -/
structure FeedState where
  timers : List String
deriving DecidableEq

/-- `datafeed.subscribeBars`: starts a new interval timer for the subscriber
(the returned interval id is discarded by the source). -/
def subscribeBars (st : FeedState) (uid : String) : FeedState :=
  { timers := st.timers ++ [uid] }

/-- `datafeed.unsubscribeBars`: only logs; no timer is cleared, no state is
touched. -/
def unsubscribeBars (st : FeedState) (uid : String) : FeedState :=
  st

/-- Events of the datafeed transition system: the two API calls plus the
firing of a subscriber's timer. -/
inductive FeedEvent where
  | subscribe (uid : String)
  | unsubscribe (uid : String)
  | tick (uid : String)
deriving DecidableEq

/-- One step: returns the next state and the list of subscriberUIDs whose
`onRealtimeCallback` was invoked during the step.  A `tick` for a running
timer always emits (the callback body has no active-flag check). -/
def feedStep (st : FeedState) : FeedEvent → FeedState × List String
  | FeedEvent.subscribe uid => (subscribeBars st uid, [])
  | FeedEvent.unsubscribe uid => (unsubscribeBars st uid, [])
  | FeedEvent.tick uid =>
      if uid ∈ st.timers then (st, [uid]) else (st, [])

/-- C9, refuted (code bug): `unsubscribeBars` never changes the state, so a
subscriber's timer keeps firing after cancellation — in the trace
subscribe "uid1"; unsubscribe "uid1"; tick "uid1", the tick after the
cancellation still emits a realtime callback for "uid1".  The claimed
never-property of the step relation is false. -/
theorem unsubscribe_does_not_cancel :
    (∀ (st : FeedState) (uid : String), unsubscribeBars st uid = st) ∧
    (feedStep (feedStep (feedStep ⟨[]⟩
        (FeedEvent.subscribe "uid1")).1 (FeedEvent.unsubscribe "uid1")).1
      (FeedEvent.tick "uid1")).2 = ["uid1"] := by
  exact ⟨fun _ _ => rfl, by decide⟩

/-!
`aggregateData` (src/script.js lines 225-247): groups minute bars into
interval-sized candles.  `Math.floor(d.t / intervalMillis)` on integer
timestamps and a positive divisor is floor division, `Int.fdiv`.
-/

/-- One OHLCV bar `{ t, o, h, l, c, v }` as produced for `minuteData`. -/
structure Bar where
  t : Int
  o : Rat
  h : Rat
  l : Rat
  c : Rat
  v : Rat
deriving DecidableEq

/-- `Math.floor(d.t / intervalMillis) * intervalMillis`, the candle bucket of
a bar. -/
def bucket (m : Int) (d : Bar) : Int :=
  Int.fdiv d.t m * m

/-- The aggregated candle pushed for a non-empty group `g :: gs`
(src/script.js lines 235-242): first bar's `t` and `o`, max of highs, min of
lows, last bar's `c`, sum of volumes. -/
def candleOf (g : Bar) (gs : List Bar) : Bar :=
  { t := g.t,
    o := g.o,
    h := gs.foldl (fun acc d => max acc d.h) g.h,
    l := gs.foldl (fun acc d => min acc d.l) g.l,
    c := (gs.getLastD g).c,
    v := ((g :: gs).map Bar.v).sum }

/-- The `while (i < data.length)` loop of `aggregateData`: the group is
filtered from the whole array and `i` advances by the group's length (or by
one on an empty group, the source's dead `else` branch). -/
def aggregateLoop (data : List Bar) (m : Int) (i : Nat) : List Bar :=
  if hi : i < data.length then
    match data.filter (fun d => bucket m d == bucket m (data.get ⟨i, hi⟩)) with
    | [] => aggregateLoop data m (i + 1)
    | g :: gs => candleOf g gs :: aggregateLoop data m (i + (g :: gs).length)
  else []
termination_by data.length - i
decreasing_by
  · omega
  · simp only [List.length_cons]
    omega

/-- `aggregateData(data, interval)`: identity for `interval <= 1`, otherwise
the grouping loop with `intervalMillis = interval * 60000`. -/
def aggregateData (data : List Bar) (interval : Int) : List Bar :=
  if interval ≤ 1 then data
  else aggregateLoop data (interval * 60000) 0

theorem bucket_mono {m : Int} (hm : 0 < m) {a b : Bar} (h : a.t ≤ b.t) :
    bucket m a ≤ bucket m b := by
  unfold bucket
  rw [Int.fdiv_eq_ediv _ (le_of_lt hm), Int.fdiv_eq_ediv _ (le_of_lt hm)]
  exact mul_le_mul_of_nonneg_right (Int.ediv_le_ediv hm h) (le_of_lt hm)

theorem dropWhile_head_not {α : Type} (p : α → Bool) :
    ∀ (l : List α) (w : α) (ws : List α), l.dropWhile p = w :: ws → p w = false := by
  intro l
  induction l with
  | nil => intro w ws hcon; cases hcon
  | cons x xs ih =>
      intro w ws hd
      rw [List.dropWhile_cons] at hd
      by_cases hx : p x = true
      · rw [if_pos hx] at hd
        exact ih w ws hd
      · rw [if_neg hx] at hd
        rcases List.cons.injEq .. ▸ hd with ⟨rfl, rfl⟩
        exact Bool.eq_false_iff.mpr hx

theorem filter_eq_takeWhile_bucket (m b : Int) :
    ∀ (l : List Bar), l.Pairwise (fun x y => bucket m x ≤ bucket m y) →
      (∀ x ∈ l, b ≤ bucket m x) →
      l.filter (fun d => bucket m d == b) = l.takeWhile (fun d => bucket m d == b) := by
  intro l
  induction l with
  | nil => intro _ _; rfl
  | cons x xs ih =>
      intro hpair hge
      rcases List.pairwise_cons.mp hpair with ⟨hx, hxs⟩
      by_cases hfx : bucket m x = b
      · have hpx : (bucket m x == b) = true := beq_iff_eq.mpr hfx
        rw [List.filter_cons, if_pos hpx,
          @List.takeWhile_cons_of_pos Bar (fun d => bucket m d == b) x xs hpx,
          ih hxs (fun y hy => hge y (List.mem_cons_of_mem _ hy))]
      · have hpx : (bucket m x == b) = false := beq_eq_false_iff_ne.mpr hfx
        have hlt : b < bucket m x := lt_of_le_of_ne (hge x (List.mem_cons_self _ _)) (Ne.symm hfx)
        rw [List.filter_cons, if_neg (by simp [hpx]),
          @List.takeWhile_cons_of_neg Bar (fun d => bucket m d == b) x xs
            (by simp [hpx])]
        exact List.filter_eq_nil_iff.mpr (fun y hy => by
          have hby : b < bucket m y := lt_of_lt_of_le hlt (hx y hy)
          simp only [beq_iff_eq]
          exact (ne_of_lt hby).symm)

theorem get_append_length {α : Type} :
    ∀ (pre : List α) (s : α) (ss : List α)
      (h : pre.length < (pre ++ s :: ss).length),
      (pre ++ s :: ss).get ⟨pre.length, h⟩ = s := by
  intro pre
  induction pre with
  | nil => intro s ss h; rfl
  | cons x xs ih => intro s ss h; exact ih s ss (by simpa using h)

theorem aggregateLoop_partition (m : Int) :
    ∀ (n : Nat) (pre suf : List Bar), suf.length ≤ n →
      suf.Pairwise (fun x y => bucket m x ≤ bucket m y) →
      (∀ d ∈ pre, ∀ e ∈ suf, bucket m d < bucket m e) →
      ∃ groups : List (Bar × List Bar),
        (groups.map (fun gg => gg.1 :: gg.2)).flatten = suf ∧
        aggregateLoop (pre ++ suf) m pre.length
          = groups.map (fun gg => candleOf gg.1 gg.2) := by
  intro n
  induction n with
  | zero =>
      intro pre suf hlen _ _
      have hs : suf = [] := List.eq_nil_of_length_eq_zero (by omega)
      subst hs
      refine ⟨[], rfl, ?_⟩
      rw [aggregateLoop]
      simp
  | succ n ih =>
      intro pre suf hlen hpair hcross
      cases suf with
      | nil =>
          refine ⟨[], rfl, ?_⟩
          rw [aggregateLoop]
          simp
      | cons s ss =>
          have hhead : ∀ y ∈ ss, bucket m s ≤ bucket m y :=
            (List.pairwise_cons.mp hpair).1
          have hsspair := (List.pairwise_cons.mp hpair).2
          have hi : pre.length < (pre ++ s :: ss).length := by
            simp [List.length_append]
          have hget : (pre ++ s :: ss).get ⟨pre.length, hi⟩ = s :=
            get_append_length pre s ss hi
          have hpre_nil : pre.filter (fun d => bucket m d == bucket m s) = [] :=
            List.filter_eq_nil_iff.mpr (fun d hd => by
              have hlt := hcross d hd s (List.mem_cons_self _ _)
              simp only [beq_iff_eq]
              exact ne_of_lt hlt)
          have hsuf_tw : (s :: ss).filter (fun d => bucket m d == bucket m s)
              = (s :: ss).takeWhile (fun d => bucket m d == bucket m s) :=
            filter_eq_takeWhile_bucket m (bucket m s) (s :: ss) hpair
              (fun x hx => by
                rcases List.mem_cons.mp hx with rfl | hx
                · exact le_refl _
                · exact hhead x hx)
          have hpred_s : (bucket m s == bucket m s) = true := beq_self_eq_true _
          have htw_dw : ss.takeWhile (fun d => bucket m d == bucket m s)
                ++ ss.dropWhile (fun d => bucket m d == bucket m s) = ss :=
            List.takeWhile_append_dropWhile _ _
          -- every bar after the dropped prefix lies in a strictly later bucket
          have hdw_gt : ∀ e ∈ ss.dropWhile (fun d => bucket m d == bucket m s),
              bucket m s < bucket m e := by
            cases hdw : ss.dropWhile (fun d => bucket m d == bucket m s) with
            | nil => intro e he; cases he
            | cons w ws =>
                have hw_false : (fun d => bucket m d == bucket m s) w = false :=
                  dropWhile_head_not _ ss w ws hdw
                have hw_mem : w ∈ ss :=
                  (List.dropWhile_sublist _).mem (hdw ▸ List.mem_cons_self w ws)
                have hw_gt : bucket m s < bucket m w :=
                  lt_of_le_of_ne (hhead w hw_mem)
                    (Ne.symm (by simpa [beq_iff_eq] using hw_false))
                have hdwpair : (w :: ws).Pairwise
                    (fun x y => bucket m x ≤ bucket m y) :=
                  hdw ▸ hsspair.sublist (List.dropWhile_sublist _)
                intro e he
                rcases List.mem_cons.mp he with rfl | he
                · exact hw_gt
                · exact lt_of_lt_of_le hw_gt ((List.pairwise_cons.mp hdwpair).1 e he)
          obtain ⟨groups, hjoin, hloop⟩ :=
            ih (pre ++ s :: ss.takeWhile (fun d => bucket m d == bucket m s))
              (ss.dropWhile (fun d => bucket m d == bucket m s))
              (by
                have h1 := (List.dropWhile_sublist
                  (fun d => bucket m d == bucket m s) (l := ss)).length_le
                simp only [List.length_cons] at hlen
                omega)
              (hsspair.sublist (List.dropWhile_sublist _))
              (by
                intro d hd e he
                have hegt := hdw_gt e he
                rcases List.mem_append.mp hd with hd | hd
                · have hess : e ∈ ss := (List.dropWhile_sublist _).mem he
                  exact hcross d hd e (List.mem_cons_of_mem _ hess)
                · rcases List.mem_cons.mp hd with rfl | hd
                  · exact hegt
                  · have : bucket m d = bucket m s := by
                      simpa [beq_iff_eq] using List.mem_takeWhile_imp hd
                    rw [this]
                    exact hegt)
          refine ⟨(s, ss.takeWhile (fun d => bucket m d == bucket m s)) :: groups,
            ?_, ?_⟩
          · simp only [List.map_cons, List.flatten_cons, hjoin, List.cons_append,
              htw_dw]
          · rw [aggregateLoop, dif_pos hi, hget]
            rw [List.filter_append, hpre_nil, List.nil_append, hsuf_tw,
              @List.takeWhile_cons_of_pos Bar
                (fun d => bucket m d == bucket m s) s ss hpred_s]
            dsimp only [List.map_cons]
            congr 1
            have hdata : pre ++ s :: ss
                = (pre ++ s :: ss.takeWhile (fun d => bucket m d == bucket m s))
                  ++ ss.dropWhile (fun d => bucket m d == bucket m s) := by
              rw [List.append_assoc, List.cons_append, htw_dw]
            have hidx : pre.length
                  + (s :: ss.takeWhile (fun d => bucket m d == bucket m s)).length
                = (pre ++ s :: ss.takeWhile
                    (fun d => bucket m d == bucket m s)).length := by
              simp [List.length_append]
            rw [hdata, hidx]
            exact hloop

theorem candle_vsum (groups : List (Bar × List Bar)) :
    ((groups.map (fun gg => candleOf gg.1 gg.2)).map Bar.v).sum
      = ((groups.map (fun gg => gg.1 :: gg.2)).flatten.map Bar.v).sum := by
  induction groups with
  | nil => rfl
  | cons g gs ih =>
      simp only [List.map_cons, List.flatten_cons, List.map_append, List.sum_append,
        List.sum_cons, ih]
      rfl

/-- C10: for bars sorted in non-decreasing timestamp order, `aggregateData`
is the identity when `interval ≤ 1`; when `interval > 1` the output candles
partition the input (the input list is exactly the concatenation of the
non-empty groups, each contributing one candle), so the total volume of the
output equals the total volume of the input. -/
theorem aggregateData_partitions (data : List Bar) (interval : Int)
    (hsorted : data.Pairwise (fun a b : Bar => a.t ≤ b.t)) :
    (interval ≤ 1 → aggregateData data interval = data) ∧
    (¬ interval ≤ 1 →
      ∃ groups : List (Bar × List Bar),
        (groups.map (fun gg => gg.1 :: gg.2)).flatten = data ∧
        aggregateData data interval = groups.map (fun gg => candleOf gg.1 gg.2)) ∧
    ((aggregateData data interval).map Bar.v).sum = (data.map Bar.v).sum := by
  have hmain : ¬ interval ≤ 1 →
      ∃ groups : List (Bar × List Bar),
        (groups.map (fun gg => gg.1 :: gg.2)).flatten = data ∧
        aggregateData data interval = groups.map (fun gg => candleOf gg.1 gg.2) := by
    intro h1
    have hmpos : 0 < interval * 60000 := by
      have : 2 ≤ interval := by omega
      omega
    have hpair : data.Pairwise
        (fun x y => bucket (interval * 60000) x ≤ bucket (interval * 60000) y) :=
      hsorted.imp (fun h => bucket_mono hmpos h)
    obtain ⟨groups, hjoin, hloop⟩ :=
      aggregateLoop_partition (interval * 60000) data.length [] data le_rfl
        hpair (by intro d hd; cases hd)
    refine ⟨groups, hjoin, ?_⟩
    unfold aggregateData
    rw [if_neg h1]
    exact hloop
  refine ⟨?_, hmain, ?_⟩
  · intro h1
    unfold aggregateData
    rw [if_pos h1]
  · by_cases h1 : interval ≤ 1
    · unfold aggregateData
      rw [if_pos h1]
    · obtain ⟨groups, hjoin, hout⟩ := hmain h1
      rw [hout, candle_vsum, hjoin]

/-- C10 witness: three 1-minute bars (the first two in the same 2-minute
bucket) aggregated at interval 2 — the claim's hypotheses hold and the
volume totals agree. -/
theorem aggregateData_partitions_witness :
    ([⟨0, 1, 2, 0, 1, 10⟩, ⟨60000, 1, 2, 0, 1, 20⟩,
        ⟨120000, 1, 2, 0, 1, 30⟩] : List Bar).Pairwise (fun a b : Bar => a.t ≤ b.t) ∧
    (((2 : Int) ≤ 1 → aggregateData
        [⟨0, 1, 2, 0, 1, 10⟩, ⟨60000, 1, 2, 0, 1, 20⟩, ⟨120000, 1, 2, 0, 1, 30⟩] 2
        = [⟨0, 1, 2, 0, 1, 10⟩, ⟨60000, 1, 2, 0, 1, 20⟩, ⟨120000, 1, 2, 0, 1, 30⟩]) ∧
     (¬ (2 : Int) ≤ 1 →
(∃ groups : List (Bar × List Bar),
        (groups.map (fun gg => gg.1 :: gg.2)).flatten
          = [⟨0, 1, 2, 0, 1, 10⟩, ⟨60000, 1, 2, 0, 1, 20⟩, ⟨120000, 1, 2, 0, 1, 30⟩] ∧
        aggregateData
          [⟨0, 1, 2, 0, 1, 10⟩, ⟨60000, 1, 2, 0, 1, 20⟩, ⟨120000, 1, 2, 0, 1, 30⟩] 2
          = groups.map (fun gg => candleOf gg.1 gg.2))) ∧
     ((aggregateData
        [⟨0, 1, 2, 0, 1, 10⟩, ⟨60000, 1, 2, 0, 1, 20⟩, ⟨120000, 1, 2, 0, 1, 30⟩] 2).map
          Bar.v).sum
       = (([⟨0, 1, 2, 0, 1, 10⟩, ⟨60000, 1, 2, 0, 1, 20⟩,
            ⟨120000, 1, 2, 0, 1, 30⟩] : List Bar).map Bar.v).sum) := by
  have hsorted : ([⟨0, 1, 2, 0, 1, 10⟩, ⟨60000, 1, 2, 0, 1, 20⟩,
      ⟨120000, 1, 2, 0, 1, 30⟩] : List Bar).Pairwise (fun a b : Bar => a.t ≤ b.t) := by
    decide
  exact ⟨hsorted, aggregateData_partitions _ 2 hsorted⟩

end Trade
